import Mathlib

/-!
Verification model of `src/animation/offline/tools/convert2anim.cc` from the
OZZAnimC repository.  The C++ tool converts an imported skeletal animation to
an ozz binary archive, driven by a JSON configuration.  This file gives a
shallow embedding of the logic of the tool itself: the JSON config sanitizer
(`MakeDefault`, `Sanitize`, ...), the output-filename construction
(`BuildFilename`), the optimization-statistics report, the endianness
selection, the `Export` stage sequencing and the `AnimationConverter`
coordinator.  External collaborators that live outside `src/` (the JsonCpp
library, the additive builder, the optimizer, the animation builder, file
I/O) are modelled as explicit parameters or by their documented behaviour on
the receivers the tool actually uses.

Strings handled character-by-character by the C++ code (the filename
wildcard loop) are modelled as `List Char`; other strings are Lean `String`.
C++ `float` values are modelled as exact rationals: no claim below observes
floating-point rounding, only types and zero tests.
-/

namespace Ozz

/-- Json value types, mirroring `Json::ValueType` of JsonCpp
(null, int, uint, real, string, boolean, array, object). -/
inductive JsonType where
  | nullT
  | intT
  | uintT
  | realT
  | stringT
  | boolT
  | arrayT
  | objectT
  deriving DecidableEq

/-- A JSON document tree, mirroring the JsonCpp type `Json::Value`.  Object members
are kept as an association list in insertion order; JsonCpp stores members
sorted by key, but no claim observes member order.  `setComment` calls of the
C++ code are pure metadata and are not modelled.  Real (float) payloads are
modelled as exact rationals. -/
inductive JsonValue where
  | null
  | intVal (n : Int)
  | uintVal (n : Nat)
  | realVal (q : Rat)
  | stringVal (s : String)
  | boolVal (b : Bool)
  | arrayVal (elems : List JsonValue)
  | objectVal (members : List (String × JsonValue))

/-- First binding of a key in an object member list (JsonCpp objects have at
most one binding per key; our operations preserve that). -/
def lookupMember : List (String × JsonValue) → String → Option JsonValue
  | [], _ => none
  | (k, v) :: rest, name => if k = name then some v else lookupMember rest name

/-- Replace the binding of `name` if present, otherwise append it:
the member-map update underlying the JsonCpp `operator[]` assignment. -/
def setPair : List (String × JsonValue) → String → JsonValue → List (String × JsonValue)
  | [], name, v => [(name, v)]
  | (k, w) :: rest, name, v =>
      if k = name then (k, v) :: rest else (k, w) :: setPair rest name v

/-- Model of `Json::Value::find(begin, end)`: looks a member up in an object, returns
nothing on a null value.  The tool only calls it on object or null parents on
the paths any claim exercises. -/
def JsonValue.find : JsonValue → String → Option JsonValue
  | .objectVal members, name => lookupMember members name
  | _, _ => none

/-- The member-creating write of the non-const JsonCpp `operator[](key) = v`:
on an object it inserts or replaces the member, on a null value it turns the
value into a one-member object.  Other receivers are left unchanged (JsonCpp
asserts there; the tool never reaches that case on a path a claim relies on). -/
def JsonValue.setMember : JsonValue → String → JsonValue → JsonValue
  | .objectVal members, name, v => .objectVal (setPair members name v)
  | .null, name, v => .objectVal [(name, v)]
  | other, _, _ => other

/-- The reading use of `operator[](key)`: the member when present, null
otherwise. -/
def JsonValue.getMember (v : JsonValue) (name : String) : JsonValue :=
  (v.find name).getD .null

/-- Model of `Json::Value::size()`: number of elements of an array, number of members
of an object, 0 for every scalar. -/
def JsonValue.size : JsonValue → Nat
  | .arrayVal elems => elems.length
  | .objectVal members => members.length
  | _ => 0

/-- Array element read `value[i]`; null when out of range or not an array. -/
def JsonValue.getElem : JsonValue → Nat → JsonValue
  | .arrayVal elems, i => elems.getD i .null
  | _, _ => .null

/-- Array element write through the reference returned by `value[i]`. -/
def JsonValue.setElem : JsonValue → Nat → JsonValue → JsonValue
  | .arrayVal elems, i, v => .arrayVal (elems.set i v)
  | other, _, _ => other

/-- Model of `Json::Value::type()`. -/
def JsonValue.typeOf : JsonValue → JsonType
  | .null => .nullT
  | .intVal _ => .intT
  | .uintVal _ => .uintT
  | .realVal _ => .realT
  | .stringVal _ => .stringT
  | .boolVal _ => .boolT
  | .arrayVal _ => .arrayT
  | .objectVal _ => .objectT

/-- Model of `Json::Value::isArray()`. -/
def JsonValue.isArray : JsonValue → Bool
  | .arrayVal _ => true
  | _ => false

/-- Model of `Json::Value::isObject()`. -/
def JsonValue.isObject : JsonValue → Bool
  | .objectVal _ => true
  | _ => false

/-- Model of `Json::Value::asBool()` on the receivers the tool uses (booleans written
by the sanitizer; null only on paths no claim relies on). -/
def JsonValue.asBool : JsonValue → Bool
  | .boolVal b => b
  | .intVal n => decide (n ≠ 0)
  | .uintVal n => decide (n ≠ 0)
  | .realVal q => decide (q ≠ 0)
  | _ => false

/-- Model of `Json::Value::asCString()` on the string values the sanitizer guarantees. -/
def JsonValue.asCString : JsonValue → String
  | .stringVal s => s
  | _ => ""

/-- Model of `Json::Value::asFloat()` on the real values the sanitizer guarantees. -/
def JsonValue.asFloat : JsonValue → Rat
  | .realVal q => q
  | .intVal n => (n : Rat)
  | .uintVal n => (n : Rat)
  | .boolVal b => if b then 1 else 0
  | _ => 0

/-- Modelled from the spec: `AnimationOptimizer().translation_tolerance`, the
default translation tolerance of the builder.  The numeric value lives in
repository code outside `src/`; only its float (real) type is observable by
the sanitizer, so a representative rational is used. -/
def translation_tolerance : Rat := 1 / 1000

/-- Modelled from the spec: `AnimationOptimizer().rotation_tolerance`
(builder default, radians); value immaterial, see `translation_tolerance`. -/
def rotation_tolerance : Rat := 1 / 573

/-- Modelled from the spec: `AnimationOptimizer().scale_tolerance`
(builder default); value immaterial, see `translation_tolerance`. -/
def scale_tolerance : Rat := 1 / 1000

/-- Modelled from the spec: `AnimationOptimizer().hierarchical_tolerance`
(builder default, meters); value immaterial, see `translation_tolerance`. -/
def hierarchical_tolerance : Rat := 1 / 1000

/-- Embedding of `MakeDefaultArray` of convert2anim.cc: a missing member is created as a
one-element array (`resize(1)` on the fresh null member yields `[null]`) and
that is not a failure; a present member fails unless it is an array. -/
def MakeDefaultArray (parent : JsonValue) (name : String) : Bool × JsonValue :=
  match parent.find name with
  | none => (true, parent.setMember name (.arrayVal [.null]))
  | some found => (found.isArray, parent)

/-- Embedding of `MakeDefaultObject` of convert2anim.cc: a missing member is created (as a
null value, to be filled by the nested scalar rules) and that is not a
failure; a present member fails unless it is an object. -/
def MakeDefaultObject (parent : JsonValue) (name : String) : Bool × JsonValue :=
  match parent.find name with
  | none => (true, parent.setMember name .null)
  | some found => (found.isObject, parent)

/-- Embedding of `MakeDefault<_Type>` of convert2anim.cc: a missing member is set to the
default value and that is not a failure; a present member fails unless its
type equals the Json type of the default (`ToJsonType<_Type>::kType`). -/
def MakeDefault (parent : JsonValue) (name : String) (value : JsonValue) : Bool × JsonValue :=
  match parent.find name with
  | none => (true, parent.setMember name value)
  | some found => (decide (found.typeOf = value.typeOf), parent)

/-- The four scalar rules `SanitizeOptimizationTolerances` applies to the
tolerances member, in source order. -/
def sanitizeTolerancesFields (tol : JsonValue) : Bool × JsonValue :=
  let t1 := MakeDefault tol "translation" (.realVal translation_tolerance)
  let t2 := MakeDefault t1.2 "rotation" (.realVal rotation_tolerance)
  let t3 := MakeDefault t2.2 "scale" (.realVal scale_tolerance)
  let t4 := MakeDefault t3.2 "hierarchical" (.realVal hierarchical_tolerance)
  (t1.1 && t2.1 && t3.1 && t4.1, t4.2)

/-- Embedding of `SanitizeOptimizationTolerances`: ensures the `optimization_tolerances`
object exists and holds the four float tolerances.  The C++ code mutates the
member through a reference; here the updated member is written back at the
end, which yields the same tree. -/
def SanitizeOptimizationTolerances (root : JsonValue) : Bool × JsonValue :=
  let m0 := MakeDefaultObject root "optimization_tolerances"
  let ts := sanitizeTolerancesFields (m0.2.getMember "optimization_tolerances")
  (m0.1 && ts.1, m0.2.setMember "optimization_tolerances" ts.2)

/-- Embedding of `SanitizeAnimation`: the per-entry rules, in source order
(output, optimize, optimization tolerances, raw, additive); the successes of
all sub-rules are AND-ed. -/
def SanitizeAnimation (root : JsonValue) : Bool × JsonValue :=
  let m1 := MakeDefault root "output" (.stringVal "*.ozz")
  let m2 := MakeDefault m1.2 "optimize" (.boolVal true)
  let m3 := SanitizeOptimizationTolerances m2.2
  let m4 := MakeDefault m3.2 "raw" (.boolVal false)
  let m5 := MakeDefault m4.2 "additive" (.boolVal false)
  (m1.1 && m2.1 && m3.1 && m4.1 && m5.1, m5.2)

/-- The loop body of `Sanitize`: the source iterates `i` over the size of the
`animations` array but calls `SanitizeAnimation(animations[0])` at every
iteration — index 0, not `i`.  The array size is unchanged by the body, so
running the loop with the initial size is the C++ behaviour. -/
def sanitizeAnimationsLoop : Nat → Bool → JsonValue → Bool × JsonValue
  | 0, s, anims => (s, anims)
  | n + 1, s, anims =>
      let r := SanitizeAnimation (anims.getElem 0)
      sanitizeAnimationsLoop n (s && r.1) (anims.setElem 0 r.2)

/-- Embedding of `Sanitize`: ensures the `animations` array exists, then runs the
per-entry loop (which the source applies to element 0 only, see
`sanitizeAnimationsLoop`). -/
def Sanitize (root : JsonValue) : Bool × JsonValue :=
  let m0 := MakeDefaultArray root "animations"
  let anims0 := m0.2.getMember "animations"
  let l := sanitizeAnimationsLoop anims0.size true anims0
  (m0.1 && l.1, m0.2.setMember "animations" l.2)

/-- One step of the `BuildFilename` loop: `output.find('*')` scans from the
start of the string; `output.replace(asterisk, 1, _animation)` substitutes
the animation name for that single character.  Returns nothing when the
string has no asterisk (the loop exit condition). -/
def replaceFirstStar (animation : List Char) : List Char → Option (List Char)
  | [] => none
  | c :: cs =>
      if c = '*' then some (animation ++ cs)
      else
        match replaceFirstStar animation cs with
        | none => none
        | some cs2 => some (c :: cs2)

/-- The `BuildFilename` loop of convert2anim.cc, with explicit fuel: the C++
loop repeats `replaceFirstStar` until no asterisk is left and has no bound of
its own.  `none` means the fuel ran out before the loop exited. -/
def buildFilenameFuel (animation : List Char) : Nat → List Char → Option (List Char)
  | 0, _ => none
  | n + 1, s =>
      match replaceFirstStar animation s with
      | none => some s
      | some s2 => buildFilenameFuel animation n s2

/-- Number of asterisks in a string; with an asterisk-free animation name
each loop iteration removes exactly one, so `countStars pattern + 1` fuel is
enough for `buildFilenameFuel` to reach the loop exit. -/
def countStars (s : List Char) : Nat := s.countP (fun c => c = '*')

/-- Proposition that `BuildFilename` terminates on the given pattern and animation name:
some amount of fuel lets the loop reach its exit. -/
def BuildFilenameTerminates (pattern animation : List Char) : Prop :=
  ∃ fuel, (buildFilenameFuel animation fuel pattern).isSome

/-- Specification-side description of the filename rule, written from the
words of the spec: every occurrence of the wildcard is replaced by the full
animation name, each occurrence identically.  To be compared with
`buildFilenameFuel`, which embeds the source loop. -/
def replaceStarsSpec (animation : List Char) : List Char → List Char
  | [] => []
  | c :: cs =>
      if c = '*' then animation ++ replaceStarsSpec animation cs
      else c :: replaceStarsSpec animation cs

/-- Embedding of `OutputSingleAnimation`: true when the output pattern holds no `*`
(`strchr(_output, '*') == NULL`). -/
def OutputSingleAnimation (output : String) : Bool :=
  !(output.data.contains '*')

/-- A keyframe of one channel of a joint track.  Its payload (time and float
value) is observed by no claim in this development, which only counts
keyframes, so it is modelled opaquely. -/
structure Keyframe where
  deriving DecidableEq

/-- Embedding of `RawAnimation::JointTrack`: three independently sized keyframe
sequences. -/
structure JointTrack where
  translations : List Keyframe
  rotations : List Keyframe
  scales : List Keyframe
  deriving DecidableEq

/-- Embedding of `ozz::animation::offline::RawAnimation`: a name, a duration and the
per-joint tracks.  The duration (a float) is carried for shape but observed
by no claim. -/
structure RawAnimation where
  name : List Char
  duration : Rat
  tracks : List JointTrack
  deriving DecidableEq

/-- Total translation keyframe count over all tracks, as accumulated by the
first loop of `DisplaysOptimizationstatistics`. -/
def totalTranslations (a : RawAnimation) : Nat :=
  a.tracks.foldl (fun n t => n + t.translations.length) 0

/-- Total rotation keyframe count over all tracks. -/
def totalRotations (a : RawAnimation) : Nat :=
  a.tracks.foldl (fun n t => n + t.rotations.length) 0

/-- Total scale keyframe count over all tracks. -/
def totalScales (a : RawAnimation) : Nat :=
  a.tracks.foldl (fun n t => n + t.scales.length) 0

/-- One ratio of `DisplaysOptimizationstatistics`:
`non_opt != 0 ? 100.f * (non_opt - opt) / non_opt : 0`.
The subtraction is on `size_t` and wraps modulo 2^64; the float arithmetic is
modelled in exact rationals (no claim observes rounding, only the
zero-denominator guard). -/
def optimizationRatio (nonOpt opt : Nat) : Rat :=
  if nonOpt ≠ 0 then
    100 * (((nonOpt % 2 ^ 64 + 2 ^ 64 - opt % 2 ^ 64) % 2 ^ 64 : Nat) : Rat) / (nonOpt : Rat)
  else 0

/-- Embedding of `DisplaysOptimizationstatistics`: the three percentage ratios the
function computes and logs (translation, rotation, scale), first argument
the non-optimized animation, second the optimized one. -/
def DisplaysOptimizationstatistics (nonOptimized optimized : RawAnimation) :
    Rat × Rat × Rat :=
  (optimizationRatio (totalTranslations nonOptimized) (totalTranslations optimized),
   optimizationRatio (totalRotations nonOptimized) (totalRotations optimized),
   optimizationRatio (totalScales nonOptimized) (totalScales optimized))

/-- Model of `ozz::Endianness` (`kLittleEndian` / `kBigEndian`);
`GetNativeEndianness()` returns one of the two, a parameter below. -/
inductive Endianness where
  | little
  | big
  deriving DecidableEq

/-- The endianness selection of `Export` (convert2anim.cc lines 486-491),
embedded literally: `strcmp` used as a truth value, so each branch fires when
the option string DIFFERS from the compared literal:

  ozz::Endianness endianness = ozz::GetNativeEndianness();
  if (std::strcmp(OPTIONS_endian, "little")) endianness = kLittleEndian;
  else if (std::strcmp(OPTIONS_endian, "big")) endianness = kBigEndian;

`native` is the host platform endianness, `endianOption` the validated
option value ("native", "little" or "big"). -/
def selectEndianness (native : Endianness) (endianOption : String) : Endianness :=
  if endianOption != "little" then Endianness.little
  else if endianOption != "big" then Endianness.big
  else native

/-- The runtime skeleton, an external collaborator: only handed through to
the optimizer, never inspected by the code of the tool itself. -/
structure Skeleton where
  numJoints : Nat

/-- The compiled runtime animation, produced by the external
`AnimationBuilder` and consumed opaquely by the archive writer. -/
structure Animation where
  deriving DecidableEq

/-- What `Export` writes to the output archive: either the raw animation or
the compiled runtime animation, mirroring the tag dispatch of the source. -/
inductive ArchivePayload where
  | rawAnimation (a : RawAnimation)
  | runtimeAnimation (a : Animation)

/-- Outcome of one `Export` call: the returned bool, and what reached the
output destination (`none` = the destination was never created or written). -/
structure ExportResult where
  success : Bool
  written : Option ArchivePayload

/-- The external collaborators `Export` drives, as abstract functions:
`AdditiveAnimationBuilder`, `AnimationOptimizer` (given the four configured
tolerances and the skeleton), `AnimationBuilder`, and whether opening the
output file in "wb" mode succeeds.  Their code lives outside `src/`; `Export`
only branches on their success. -/
structure ExportEnv where
  additiveBuilder : RawAnimation → Option RawAnimation
  optimizer : Rat → Rat → Rat → Rat → RawAnimation → Skeleton → Option RawAnimation
  animationBuilder : RawAnimation → Option Animation
  openOutput : List Char → Bool

/-- Embedding of `Export` of convert2anim.cc: additive delta (if configured), keyframe
optimization (if configured), runtime build (unless raw output), filename
construction, file open, archive write — each stage returning `false` and
touching no output on failure.  The overall result is `none` exactly when
`BuildFilename` never returns (animation name containing `*` with a wildcard
pattern, fuel argument justified by the termination lemmas below).  Logging
and the endianness selection (embedded separately as `selectEndianness`) do
not affect control flow or the written payload value. -/
def Export (env : ExportEnv) (_raw_animation : RawAnimation) (_skeleton : Skeleton)
    (_config : JsonValue) : Option ExportResult :=
  let raw0 : Option RawAnimation :=
    if (_config.getMember "additive").asBool then env.additiveBuilder _raw_animation
    else some _raw_animation
  match raw0 with
  | none => some ⟨false, none⟩
  | some rawA =>
    let tolerances := _config.getMember "optimization_tolerances"
    let raw1 : Option RawAnimation :=
      if (_config.getMember "optimize").asBool then
        env.optimizer (tolerances.getMember "translation").asFloat
          (tolerances.getMember "rotation").asFloat
          (tolerances.getMember "scale").asFloat
          (tolerances.getMember "hierarchical").asFloat rawA _skeleton
      else some rawA
    match raw1 with
    | none => some ⟨false, none⟩
    | some rawB =>
      let built : Option (Option Animation) :=
        if (_config.getMember "raw").asBool then some none
        else
          match env.animationBuilder rawB with
          | none => none
          | some a => some (some a)
      match built with
      | none => some ⟨false, none⟩
      | some animation =>
        let pattern := ((_config.getMember "output").asCString).data
        match buildFilenameFuel _raw_animation.name (countStars pattern + 1) pattern with
        | none => none
        | some filename =>
          if env.openOutput filename then
            some ⟨true,
              some (match animation with
                    | none => ArchivePayload.rawAnimation rawB
                    | some a => ArchivePayload.runtimeAnimation a)⟩
          else some ⟨false, none⟩

/-- The inputs of one `AnimationConverter::operator()` run, after
command-line parsing (the CLI parser is an excluded collaborator): the JSON
parse outcome of the configuration string, whether the input file exists,
whether the skeleton import succeeds, the animations of the importer (if it
succeeds), and the per-animation outcome of `Export` (abstracted, since it
depends on the external builders; its detailed model is `Export` above). -/
structure ConverterInputs where
  parseResult : Option JsonValue
  fileExists : Bool
  skeletonOk : Bool
  importResult : Option (List RawAnimation)
  exportOk : RawAnimation → Bool

/-- Observable outcome of one coordinator run: the process exit status
(true = EXIT_SUCCESS), whether the importer was invoked, the animations for
which `Export` was invoked (the C++ `success &= Export(...)` calls `Export`
on every retained animation, without short-circuiting), and the diagnostic
count logged when extra animations are discarded. -/
structure ConverterResult where
  exitSuccess : Bool
  importAttempted : Bool
  exportAttempts : List RawAnimation
  discardDiagnostic : Option Nat

/-- The output pattern the coordinator reads after sanitization:
`config["animations"][0]["output"].asCString()`. -/
def animationsEntryOutput (config : JsonValue) : String :=
  (((config.getMember "animations").getElem 0).getMember "output").asCString

/-- Lines 583-592 of convert2anim.cc: when the output pattern holds no
wildcard and more than one animation was imported, keep only the first
(`animations.resize(1)`) and log how many were found. -/
def retainAnimations (pattern : String) (anims : List RawAnimation) :
    List RawAnimation × Option Nat :=
  if OutputSingleAnimation pattern && decide (1 < anims.length) then
    (anims.take 1, some anims.length)
  else (anims, none)

/-- Embedding of `AnimationConverter::operator()` after command-line parsing: JSON config
parse, sanitization, input-file existence check, skeleton import, animation
import, retention, and the export loop whose per-animation successes are
folded with AND (`success &= Export(...)`; the fold is recorded both as the
exit status and as the full list of export attempts, since `&=` evaluates
its right-hand side on every iteration). -/
def AnimationConverter (inp : ConverterInputs) : ConverterResult :=
  match inp.parseResult with
  | none => ⟨false, false, [], none⟩
  | some config =>
    let s := Sanitize config
    if s.1 = false then ⟨false, false, [], none⟩
    else if inp.fileExists = false then ⟨false, false, [], none⟩
    else if inp.skeletonOk = false then ⟨false, false, [], none⟩
    else
      match inp.importResult with
      | none => ⟨false, true, [], none⟩
      | some anims =>
        let r := retainAnimations (animationsEntryOutput s.2) anims
        ⟨r.1.all inp.exportOk, true, r.1, r.2⟩

/-- Proof-support predicate: the tree has member `name` with a value of json
type `t`. -/
def HasTyped (p : JsonValue) (name : String) (t : JsonType) : Prop :=
  ∃ w, p.find name = some w ∧ w.typeOf = t

/-- Proof-support predicate: the tree has an `optimization_tolerances`
object member holding the four float tolerance fields. -/
def TolSanitized (p : JsonValue) : Prop :=
  ∃ t, p.find "optimization_tolerances" = some t ∧ t.isObject = true ∧
    HasTyped t "translation" .realT ∧ HasTyped t "rotation" .realT ∧
    HasTyped t "scale" .realT ∧ HasTyped t "hierarchical" .realT

/-- Proof-support predicate: a fully sanitized animations entry — every
recognized field present with the type the schema expects. -/
def EntrySanitized (e : JsonValue) : Prop :=
  e.isObject = true ∧ HasTyped e "output" .stringT ∧ HasTyped e "optimize" .boolT ∧
  TolSanitized e ∧ HasTyped e "raw" .boolT ∧ HasTyped e "additive" .boolT

/-- Concrete configuration `{"animations":[{"optimize":"yes"}]}` — the
wrong-typed field sits in entry 0. -/
def cfgWrongTypeFirst : JsonValue :=
  .objectVal [("animations", .arrayVal [.objectVal [("optimize", .stringVal "yes")]])]

/-- Concrete configuration `{"animations":[{},{"optimize":"yes"}]}` — the
wrong-typed field sits in entry 1, which the sanitize loop never visits. -/
def cfgWrongTypeSecond : JsonValue :=
  .objectVal [("animations", .arrayVal [.objectVal [],
    .objectVal [("optimize", .stringVal "yes")]])]

/-- Concrete configuration `{"animations":[{},{}]}` with two empty entries. -/
def cfgTwoEmptyEntries : JsonValue :=
  .objectVal [("animations", .arrayVal [.objectVal [], .objectVal []])]

/-- Concrete configuration `{"animations":[{"output":"clip.ozz"}]}` whose
output pattern holds no wildcard. -/
def cfgSingleOutput : JsonValue :=
  .objectVal [("animations", .arrayVal [.objectVal [("output", .stringVal "clip.ozz")]])]

/-- A concrete imported animation named "walk". -/
def walkAnimation : RawAnimation := ⟨"walk".data, 1, []⟩

/-- A concrete imported animation named "run". -/
def runAnimation : RawAnimation := ⟨"run".data, 1, []⟩

/-- A concrete animation with no tracks at all (zero keyframes in every
channel). -/
def emptyRawAnimation : RawAnimation := ⟨[], 0, []⟩

/-- Concrete coordinator inputs where every stage succeeds: config string
`{}`, existing input file, successful skeleton import, one imported
animation, successful exports. -/
def converterAllOkInputs : ConverterInputs :=
  ⟨some (.objectVal []), true, true, some [walkAnimation], fun _ => true⟩

/-- Concrete coordinator inputs with a wildcard-free output pattern and two
imported animations. -/
def converterTwoAnimInputs : ConverterInputs :=
  ⟨some cfgSingleOutput, true, true, some [walkAnimation, runAnimation], fun _ => true⟩

/-- A concrete skeleton handed through to the export stages. -/
def defaultSkeleton : Skeleton := ⟨2⟩

/-- Concrete export collaborators whose builders all succeed but whose output
file cannot be opened. -/
def exportFailEnv : ExportEnv :=
  ⟨fun a => some a, fun _ _ _ _ a _ => some a, fun _ => some ⟨⟩, fun _ => false⟩

/-- The sanitized animations entry produced from the empty configuration
`{}`: every field at its default. -/
def exportConfigEntry : JsonValue :=
  ((Sanitize (.objectVal [])).2.getMember "animations").getElem 0

/-- The outcome `Export` yields when the output file cannot be opened. -/
def exportFailResult : ExportResult := ⟨false, none⟩

/-! Helper lemmas about the JSON member operations. -/

theorem lookupMember_setPair_self (ms : List (String × JsonValue)) (n : String)
    (v : JsonValue) : lookupMember (setPair ms n v) n = some v := by
  induction ms with
  | nil => simp [setPair, lookupMember]
  | cons hd tl ih =>
      obtain ⟨k, w⟩ := hd
      by_cases hk : k = n
      · subst hk; simp [setPair, lookupMember]
      · simp [setPair, lookupMember, hk, ih]

theorem lookupMember_setPair_ne (ms : List (String × JsonValue)) (m n : String)
    (v : JsonValue) (h : m ≠ n) :
    lookupMember (setPair ms n v) m = lookupMember ms m := by
  induction ms with
  | nil =>
      have : ¬ n = m := fun e => h e.symm
      simp [setPair, lookupMember, this]
  | cons hd tl ih =>
      obtain ⟨k, w⟩ := hd
      by_cases hk : k = n
      · subst hk
        have : ¬ k = m := fun e => h e.symm
        simp [setPair, lookupMember, this]
      · simp [setPair, lookupMember, hk, ih]

theorem setPair_lookup_eq (ms : List (String × JsonValue)) (n : String)
    (v : JsonValue) (h : lookupMember ms n = some v) : setPair ms n v = ms := by
  induction ms with
  | nil => simp [lookupMember] at h
  | cons hd tl ih =>
      obtain ⟨k, w⟩ := hd
      by_cases hk : k = n
      · subst hk
        simp [lookupMember] at h
        simp [setPair, h]
      · simp [lookupMember, hk] at h
        simp [setPair, hk, ih h]

theorem setPair_setPair (ms : List (String × JsonValue)) (n : String)
    (u v : JsonValue) : setPair (setPair ms n u) n v = setPair ms n v := by
  induction ms with
  | nil => simp [setPair]
  | cons hd tl ih =>
      obtain ⟨k, w⟩ := hd
      by_cases hk : k = n
      · subst hk; simp [setPair]
      · simp [setPair, hk, ih]

theorem find_setMember_self (p : JsonValue) (n : String) (v : JsonValue)
    (hp : p.isObject = true ∨ p = .null) :
    (p.setMember n v).find n = some v := by
  cases p with
  | objectVal ms =>
      simp [JsonValue.setMember, JsonValue.find, lookupMember_setPair_self]
  | null => simp [JsonValue.setMember, JsonValue.find, lookupMember]
  | intVal k => rcases hp with h | h <;> simp [JsonValue.isObject] at h
  | uintVal k => rcases hp with h | h <;> simp [JsonValue.isObject] at h
  | realVal q => rcases hp with h | h <;> simp [JsonValue.isObject] at h
  | stringVal s => rcases hp with h | h <;> simp [JsonValue.isObject] at h
  | boolVal b => rcases hp with h | h <;> simp [JsonValue.isObject] at h
  | arrayVal xs => rcases hp with h | h <;> simp [JsonValue.isObject] at h

theorem find_setMember_ne (p : JsonValue) (m n : String) (v : JsonValue)
    (h : m ≠ n) : (p.setMember n v).find m = p.find m := by
  cases p with
  | objectVal ms =>
      simp [JsonValue.setMember, JsonValue.find, lookupMember_setPair_ne ms m n v h]
  | null =>
      have : ¬ n = m := fun e => h e.symm
      simp [JsonValue.setMember, JsonValue.find, lookupMember, this]
  | intVal k => rfl
  | uintVal k => rfl
  | realVal q => rfl
  | stringVal s => rfl
  | boolVal b => rfl
  | arrayVal xs => rfl

theorem setMember_find_eq (p : JsonValue) (n : String) (v : JsonValue)
    (h : p.find n = some v) : p.setMember n v = p := by
  cases p with
  | objectVal ms =>
      simp [JsonValue.find] at h
      simp [JsonValue.setMember, setPair_lookup_eq ms n v h]
  | null => simp [JsonValue.find] at h
  | intVal k => rfl
  | uintVal k => rfl
  | realVal q => rfl
  | stringVal s => rfl
  | boolVal b => rfl
  | arrayVal xs => rfl

theorem setMember_isObject (p : JsonValue) (n : String) (v : JsonValue)
    (hp : p.isObject = true ∨ p = .null) : (p.setMember n v).isObject = true := by
  cases p with
  | objectVal ms => rfl
  | null => rfl
  | intVal k => rcases hp with h | h <;> simp [JsonValue.isObject] at h
  | uintVal k => rcases hp with h | h <;> simp [JsonValue.isObject] at h
  | realVal q => rcases hp with h | h <;> simp [JsonValue.isObject] at h
  | stringVal s => rcases hp with h | h <;> simp [JsonValue.isObject] at h
  | boolVal b => rcases hp with h | h <;> simp [JsonValue.isObject] at h
  | arrayVal xs => rcases hp with h | h <;> simp [JsonValue.isObject] at h

theorem setMember_setMember (p : JsonValue) (n : String) (u v : JsonValue) :
    (p.setMember n u).setMember n v = p.setMember n v := by
  cases p with
  | objectVal ms => simp [JsonValue.setMember, setPair_setPair]
  | null => simp [JsonValue.setMember, setPair]
  | intVal k => rfl
  | uintVal k => rfl
  | realVal q => rfl
  | stringVal s => rfl
  | boolVal b => rfl
  | arrayVal xs => rfl

theorem isObject_of_find_some (p : JsonValue) (n : String) (w : JsonValue)
    (h : p.find n = some w) : p.isObject = true := by
  cases p <;> first | rfl | simp [JsonValue.find] at h

theorem getMember_eq_of_find (p : JsonValue) (n : String) (w : JsonValue)
    (h : p.find n = some w) : p.getMember n = w := by
  simp [JsonValue.getMember, h]

/-! Step lemmas for the three fill-or-validate helpers. -/

theorem MakeDefault_missing (p : JsonValue) (n : String) (v : JsonValue)
    (h : p.find n = none) : MakeDefault p n v = (true, p.setMember n v) := by
  simp [MakeDefault, h]

theorem MakeDefault_found (p : JsonValue) (n : String) (v w : JsonValue)
    (h : p.find n = some w) :
    MakeDefault p n v = (decide (w.typeOf = v.typeOf), p) := by
  simp [MakeDefault, h]

theorem MakeDefault_found_welltyped (p : JsonValue) (n : String) (v w : JsonValue)
    (h : p.find n = some w) (ht : w.typeOf = v.typeOf) :
    MakeDefault p n v = (true, p) := by
  simp [MakeDefault, h, ht]

theorem MakeDefaultObject_missing (p : JsonValue) (n : String)
    (h : p.find n = none) : MakeDefaultObject p n = (true, p.setMember n .null) := by
  simp [MakeDefaultObject, h]

theorem MakeDefaultObject_found (p : JsonValue) (n : String) (w : JsonValue)
    (h : p.find n = some w) : MakeDefaultObject p n = (w.isObject, p) := by
  simp [MakeDefaultObject, h]

theorem MakeDefaultArray_missing (p : JsonValue) (n : String)
    (h : p.find n = none) :
    MakeDefaultArray p n = (true, p.setMember n (.arrayVal [.null])) := by
  simp [MakeDefaultArray, h]

theorem MakeDefaultArray_found (p : JsonValue) (n : String) (w : JsonValue)
    (h : p.find n = some w) : MakeDefaultArray p n = (w.isArray, p) := by
  simp [MakeDefaultArray, h]

theorem MakeDefault_success_hasTyped (p : JsonValue) (n : String) (v : JsonValue)
    (hp : p.isObject = true ∨ p = .null) (h : (MakeDefault p n v).1 = true) :
    HasTyped (MakeDefault p n v).2 n v.typeOf ∧
    (MakeDefault p n v).2.isObject = true := by
  cases hf : p.find n with
  | none =>
      rw [MakeDefault_missing p n v hf]
      exact ⟨⟨v, find_setMember_self p n v hp, rfl⟩, setMember_isObject p n v hp⟩
  | some w =>
      rw [MakeDefault_found p n v w hf]
      rw [MakeDefault_found p n v w hf] at h
      simp at h
      exact ⟨⟨w, hf, h⟩, isObject_of_find_some p n w hf⟩

theorem MakeDefault_preserves_find (p : JsonValue) (n : String) (v : JsonValue)
    (m : String) (w : JsonValue) (h : p.find m = some w) :
    (MakeDefault p n v).2.find m = some w := by
  cases hf : p.find n with
  | some u => rw [MakeDefault_found p n v u hf]; exact h
  | none =>
      rw [MakeDefault_missing p n v hf]
      have hmn : m ≠ n := by
        intro e; subst e; rw [h] at hf; cases hf
      simp only [find_setMember_ne p m n v hmn]
      exact h

theorem MakeDefault_preserves_isObject (p : JsonValue) (n : String) (v : JsonValue)
    (hp : p.isObject = true) : (MakeDefault p n v).2.isObject = true := by
  cases hf : p.find n with
  | some u => rw [MakeDefault_found p n v u hf]; exact hp
  | none =>
      rw [MakeDefault_missing p n v hf]
      exact setMember_isObject p n v (Or.inl hp)

theorem MakeDefault_preserves_hasTyped (p : JsonValue) (n : String) (v : JsonValue)
    (m : String) (t : JsonType) (h : HasTyped p m t) :
    HasTyped (MakeDefault p n v).2 m t := by
  obtain ⟨w, hf, ht⟩ := h
  exact ⟨w, MakeDefault_preserves_find p n v m w hf, ht⟩

theorem MakeDefault_preserves_tolSanitized (p : JsonValue) (n : String)
    (v : JsonValue) (h : TolSanitized p) : TolSanitized (MakeDefault p n v).2 := by
  obtain ⟨t, hf, rest⟩ := h
  exact ⟨t, MakeDefault_preserves_find p n v _ t hf, rest⟩

/-! Lemmas about the tolerances sub-sanitizer. -/

theorem stf_success (tol : JsonValue) (hp : tol.isObject = true ∨ tol = .null)
    (h : (sanitizeTolerancesFields tol).1 = true) :
    (sanitizeTolerancesFields tol).2.isObject = true ∧
    HasTyped (sanitizeTolerancesFields tol).2 "translation" .realT ∧
    HasTyped (sanitizeTolerancesFields tol).2 "rotation" .realT ∧
    HasTyped (sanitizeTolerancesFields tol).2 "scale" .realT ∧
    HasTyped (sanitizeTolerancesFields tol).2 "hierarchical" .realT := by
  simp only [sanitizeTolerancesFields, Bool.and_eq_true] at h ⊢
  obtain ⟨⟨⟨h1, h2⟩, h3⟩, h4⟩ := h
  have s1 := MakeDefault_success_hasTyped tol "translation"
    (.realVal translation_tolerance) hp h1
  have s2 := MakeDefault_success_hasTyped _ "rotation"
    (.realVal rotation_tolerance) (Or.inl s1.2) h2
  have s3 := MakeDefault_success_hasTyped _ "scale"
    (.realVal scale_tolerance) (Or.inl s2.2) h3
  have s4 := MakeDefault_success_hasTyped _ "hierarchical"
    (.realVal hierarchical_tolerance) (Or.inl s3.2) h4
  refine ⟨s4.2, ?_, ?_, ?_, s4.1⟩
  · exact MakeDefault_preserves_hasTyped _ _ _ _ _
      (MakeDefault_preserves_hasTyped _ _ _ _ _
        (MakeDefault_preserves_hasTyped _ _ _ _ _ s1.1))
  · exact MakeDefault_preserves_hasTyped _ _ _ _ _
      (MakeDefault_preserves_hasTyped _ _ _ _ _ s2.1)
  · exact MakeDefault_preserves_hasTyped _ _ _ _ _ s3.1

theorem stf_fix (tol : JsonValue)
    (h1 : HasTyped tol "translation" .realT) (h2 : HasTyped tol "rotation" .realT)
    (h3 : HasTyped tol "scale" .realT) (h4 : HasTyped tol "hierarchical" .realT) :
    sanitizeTolerancesFields tol = (true, tol) := by
  obtain ⟨w1, hf1, ht1⟩ := h1
  obtain ⟨w2, hf2, ht2⟩ := h2
  obtain ⟨w3, hf3, ht3⟩ := h3
  obtain ⟨w4, hf4, ht4⟩ := h4
  simp only [sanitizeTolerancesFields,
    MakeDefault_found_welltyped tol "translation" (.realVal translation_tolerance)
      w1 hf1 ht1,
    MakeDefault_found_welltyped tol "rotation" (.realVal rotation_tolerance)
      w2 hf2 ht2,
    MakeDefault_found_welltyped tol "scale" (.realVal scale_tolerance) w3 hf3 ht3,
    MakeDefault_found_welltyped tol "hierarchical" (.realVal hierarchical_tolerance)
      w4 hf4 ht4, Bool.and_self]

theorem SOT_success (p : JsonValue) (hp : p.isObject = true ∨ p = .null)
    (h : (SanitizeOptimizationTolerances p).1 = true) :
    TolSanitized (SanitizeOptimizationTolerances p).2 ∧
    (SanitizeOptimizationTolerances p).2.isObject = true := by
  simp only [SanitizeOptimizationTolerances, Bool.and_eq_true] at h ⊢
  obtain ⟨h0, hts⟩ := h
  cases hf : p.find "optimization_tolerances" with
  | none =>
      rw [MakeDefaultObject_missing p _ hf] at hts ⊢
      simp only at hts ⊢
      rw [getMember_eq_of_find _ _ _ (find_setMember_self p _ .null hp)] at hts ⊢
      have hstf := stf_success .null (Or.inr rfl) hts
      rw [setMember_setMember p _ .null _]
      refine ⟨⟨_, find_setMember_self p _ _ hp, hstf.1, hstf.2.1, hstf.2.2.1,
        hstf.2.2.2.1, hstf.2.2.2.2⟩, setMember_isObject p _ _ hp⟩
  | some f =>
      rw [MakeDefaultObject_found p _ f hf] at h0 hts ⊢
      simp only at h0 hts ⊢
      rw [getMember_eq_of_find _ _ _ hf] at hts ⊢
      have hstf := stf_success f (Or.inl h0) hts
      refine ⟨⟨_, find_setMember_self p _ _ hp, hstf.1, hstf.2.1, hstf.2.2.1,
        hstf.2.2.2.1, hstf.2.2.2.2⟩, setMember_isObject p _ _ hp⟩

theorem SOT_preserves_hasTyped (p : JsonValue) (m : String) (t : JsonType)
    (hm : m ≠ "optimization_tolerances") (h : HasTyped p m t) :
    HasTyped (SanitizeOptimizationTolerances p).2 m t := by
  obtain ⟨w, hfm, htw⟩ := h
  simp only [SanitizeOptimizationTolerances]
  cases hf : p.find "optimization_tolerances" with
  | none =>
      rw [MakeDefaultObject_missing p _ hf]
      simp only
      refine ⟨w, ?_, htw⟩
      rw [find_setMember_ne _ m _ _ hm, find_setMember_ne _ m _ _ hm]
      exact hfm
  | some f =>
      rw [MakeDefaultObject_found p _ f hf]
      simp only
      refine ⟨w, ?_, htw⟩
      rw [find_setMember_ne _ m _ _ hm]
      exact hfm

theorem SOT_preserves_isObject (p : JsonValue) (hp : p.isObject = true) :
    (SanitizeOptimizationTolerances p).2.isObject = true := by
  simp only [SanitizeOptimizationTolerances]
  cases hf : p.find "optimization_tolerances" with
  | none =>
      rw [MakeDefaultObject_missing p _ hf]
      exact setMember_isObject _ _ _ (Or.inl (setMember_isObject p _ _ (Or.inl hp)))
  | some f =>
      rw [MakeDefaultObject_found p _ f hf]
      exact setMember_isObject p _ _ (Or.inl hp)

theorem SOT_fix (p : JsonValue) (h : TolSanitized p) :
    SanitizeOptimizationTolerances p = (true, p) := by
  obtain ⟨t, hf, hobj, h1, h2, h3, h4⟩ := h
  simp only [SanitizeOptimizationTolerances, MakeDefaultObject_found p _ t hf, hobj,
    getMember_eq_of_find p _ t hf, stf_fix t h1 h2 h3 h4,
    setMember_find_eq p _ t hf, Bool.and_self]

/-! Lemmas about the per-entry sanitizer. -/

theorem SanitizeAnimation_success (e : JsonValue)
    (hp : e.isObject = true ∨ e = .null) (h : (SanitizeAnimation e).1 = true) :
    EntrySanitized (SanitizeAnimation e).2 := by
  simp only [SanitizeAnimation, Bool.and_eq_true] at h ⊢
  obtain ⟨⟨⟨⟨h1, h2⟩, h3⟩, h4⟩, h5⟩ := h
  have s1 := MakeDefault_success_hasTyped e "output" (.stringVal "*.ozz") hp h1
  have s2 := MakeDefault_success_hasTyped _ "optimize" (.boolVal true)
    (Or.inl s1.2) h2
  have s3 := SOT_success _ (Or.inl s2.2) h3
  have s4 := MakeDefault_success_hasTyped _ "raw" (.boolVal false)
    (Or.inl s3.2) h4
  have s5 := MakeDefault_success_hasTyped _ "additive" (.boolVal false)
    (Or.inl s4.2) h5
  refine ⟨s5.2, ?_, ?_, ?_, ?_, s5.1⟩
  · exact MakeDefault_preserves_hasTyped _ _ _ _ _
      (MakeDefault_preserves_hasTyped _ _ _ _ _
        (SOT_preserves_hasTyped _ _ _ (by decide)
          (MakeDefault_preserves_hasTyped _ _ _ _ _ s1.1)))
  · exact MakeDefault_preserves_hasTyped _ _ _ _ _
      (MakeDefault_preserves_hasTyped _ _ _ _ _
        (SOT_preserves_hasTyped _ _ _ (by decide) s2.1))
  · exact MakeDefault_preserves_tolSanitized _ _ _
      (MakeDefault_preserves_tolSanitized _ _ _ s3.1)
  · exact MakeDefault_preserves_hasTyped _ _ _ _ _ s4.1

theorem SanitizeAnimation_fix (e : JsonValue) (h : EntrySanitized e) :
    SanitizeAnimation e = (true, e) := by
  obtain ⟨hobj, ⟨w1, hf1, ht1⟩, ⟨w2, hf2, ht2⟩, htol, ⟨w4, hf4, ht4⟩,
    ⟨w5, hf5, ht5⟩⟩ := h
  simp only [SanitizeAnimation,
    MakeDefault_found_welltyped e "output" (.stringVal "*.ozz") w1 hf1 ht1,
    MakeDefault_found_welltyped e "optimize" (.boolVal true) w2 hf2 ht2,
    SOT_fix e htol,
    MakeDefault_found_welltyped e "raw" (.boolVal false) w4 hf4 ht4,
    MakeDefault_found_welltyped e "additive" (.boolVal false) w5 hf5 ht5,
    Bool.and_self]

theorem SanitizeAnimation_stable (e e2 : JsonValue)
    (h : SanitizeAnimation e = (true, e2)) : SanitizeAnimation e2 = (true, e2) := by
  cases e with
  | objectVal ms =>
      have h1 : (SanitizeAnimation (.objectVal ms)).1 = true := by rw [h]
      have hs := SanitizeAnimation_success (.objectVal ms) (Or.inl rfl) h1
      rw [h] at hs
      exact SanitizeAnimation_fix e2 hs
  | null =>
      have h1 : (SanitizeAnimation .null).1 = true := by rw [h]
      have hs := SanitizeAnimation_success .null (Or.inr rfl) h1
      rw [h] at hs
      exact SanitizeAnimation_fix e2 hs
  | intVal k =>
      have he : SanitizeAnimation (.intVal k) = (true, .intVal k) := rfl
      rw [he] at h
      rw [← (Prod.mk.injEq _ _ _ _).mp h |>.2]
      exact he
  | uintVal k =>
      have he : SanitizeAnimation (.uintVal k) = (true, .uintVal k) := rfl
      rw [he] at h
      rw [← (Prod.mk.injEq _ _ _ _).mp h |>.2]
      exact he
  | realVal q =>
      have he : SanitizeAnimation (.realVal q) = (true, .realVal q) := rfl
      rw [he] at h
      rw [← (Prod.mk.injEq _ _ _ _).mp h |>.2]
      exact he
  | stringVal s =>
      have he : SanitizeAnimation (.stringVal s) = (true, .stringVal s) := rfl
      rw [he] at h
      rw [← (Prod.mk.injEq _ _ _ _).mp h |>.2]
      exact he
  | boolVal b =>
      have he : SanitizeAnimation (.boolVal b) = (true, .boolVal b) := rfl
      rw [he] at h
      rw [← (Prod.mk.injEq _ _ _ _).mp h |>.2]
      exact he
  | arrayVal xs =>
      have he : SanitizeAnimation (.arrayVal xs) = (true, .arrayVal xs) := rfl
      rw [he] at h
      rw [← (Prod.mk.injEq _ _ _ _).mp h |>.2]
      exact he

/-! Lemmas about the sanitize loop. -/

theorem sanitizeAnimationsLoop_success_mono (n : Nat) (s : Bool) (a : JsonValue)
    (h : (sanitizeAnimationsLoop n s a).1 = true) : s = true := by
  induction n generalizing s a with
  | zero => exact h
  | succ k ih =>
      simp only [sanitizeAnimationsLoop] at h
      have := ih _ _ h
      exact (Bool.and_eq_true _ _).mp this |>.1

theorem sanitizeAnimationsLoop_cons_step (n : Nat) (s : Bool) (y : JsonValue)
    (xs : List JsonValue) :
    sanitizeAnimationsLoop (n + 1) s (.arrayVal (y :: xs))
      = sanitizeAnimationsLoop n (s && (SanitizeAnimation y).1)
          (.arrayVal ((SanitizeAnimation y).2 :: xs)) := rfl

theorem sanitizeAnimationsLoop_nil_step (n : Nat) (s : Bool) :
    sanitizeAnimationsLoop (n + 1) s (.arrayVal [])
      = sanitizeAnimationsLoop n (s && (SanitizeAnimation .null).1)
          (.arrayVal []) := rfl

theorem sanitizeAnimationsLoop_fixed (y : JsonValue) (xs : List JsonValue)
    (hy : SanitizeAnimation y = (true, y)) (n : Nat) (s : Bool) :
    sanitizeAnimationsLoop n s (.arrayVal (y :: xs)) = (s, .arrayVal (y :: xs)) := by
  induction n generalizing s with
  | zero => rfl
  | succ k ih =>
      rw [sanitizeAnimationsLoop_cons_step]
      simp only [hy, Bool.and_true]
      exact ih s

theorem sanitizeAnimationsLoop_nil (n : Nat) (s : Bool) :
    sanitizeAnimationsLoop n s (.arrayVal []) = (s, .arrayVal []) := by
  induction n generalizing s with
  | zero => rfl
  | succ k ih =>
      rw [sanitizeAnimationsLoop_nil_step]
      rw [show (SanitizeAnimation .null).1 = true from rfl, Bool.and_true]
      exact ih s

theorem sanitize_loop_main (elems : List JsonValue)
    (h : (sanitizeAnimationsLoop elems.length true (.arrayVal elems)).1 = true) :
    ∃ elems2 : List JsonValue,
      (sanitizeAnimationsLoop elems.length true (.arrayVal elems)).2
          = .arrayVal elems2 ∧
      elems2.length = elems.length ∧
      ∀ m s, sanitizeAnimationsLoop m s (.arrayVal elems2) = (s, .arrayVal elems2) := by
  cases elems with
  | nil => exact ⟨[], rfl, rfl, fun m s => sanitizeAnimationsLoop_nil m s⟩
  | cons x xs =>
      simp only [List.length_cons] at h ⊢
      rw [sanitizeAnimationsLoop_cons_step] at h ⊢
      have hx1 : (SanitizeAnimation x).1 = true := by
        have := sanitizeAnimationsLoop_success_mono _ _ _ h
        exact (Bool.and_eq_true _ _).mp this |>.2
      have hx : SanitizeAnimation x = (true, (SanitizeAnimation x).2) := by
        rw [← hx1]
      have hstable := SanitizeAnimation_stable x _ hx
      rw [hx1, Bool.and_true]
      rw [sanitizeAnimationsLoop_fixed _ xs hstable xs.length true]
      exact ⟨(SanitizeAnimation x).2 :: xs, rfl, rfl,
        fun m s => sanitizeAnimationsLoop_fixed _ xs hstable m s⟩

/-! Lemmas about the whole sanitizer. -/

theorem Sanitize_pass_eq (P : JsonValue) (elems : List JsonValue)
    (hPfind : P.find "animations" = some (.arrayVal elems)) :
    Sanitize P = ((sanitizeAnimationsLoop elems.length true (.arrayVal elems)).1,
      P.setMember "animations"
        (sanitizeAnimationsLoop elems.length true (.arrayVal elems)).2) := by
  simp only [Sanitize, MakeDefaultArray_found P _ _ hPfind,
    getMember_eq_of_find P _ _ hPfind]
  simp [JsonValue.isArray, JsonValue.size]

theorem Sanitize_missing_push (root : JsonValue)
    (hf : root.find "animations" = none)
    (hp : root.isObject = true ∨ root = .null) :
    Sanitize root = Sanitize (root.setMember "animations" (.arrayVal [.null])) := by
  have hPfind := find_setMember_self root "animations" (.arrayVal [.null]) hp
  simp only [Sanitize, MakeDefaultArray_missing root _ hf,
    MakeDefaultArray_found _ _ _ hPfind]
  simp [JsonValue.isArray]

theorem Sanitize_found_idem (P : JsonValue) (elems : List JsonValue)
    (hPobj : P.isObject = true)
    (hPfind : P.find "animations" = some (.arrayVal elems))
    (h : (Sanitize P).1 = true) :
    Sanitize (Sanitize P).2 = (true, (Sanitize P).2) := by
  have hpass := Sanitize_pass_eq P elems hPfind
  rw [hpass] at h ⊢
  obtain ⟨elems2, heq2, hlen, hfix⟩ := sanitize_loop_main elems h
  rw [heq2]
  have hRfind : (P.setMember "animations" (.arrayVal elems2)).find "animations"
      = some (.arrayVal elems2) :=
    find_setMember_self P _ _ (Or.inl hPobj)
  rw [Sanitize_pass_eq _ elems2 hRfind]
  simp only [hfix elems2.length true]
  rw [setMember_find_eq _ _ _ hRfind]

/-- C2 (refuting evaluation): the claim says every entry of the `animations`
array is fully populated whenever sanitization succeeds, but on the
configuration `{"animations":[{},{}]}` sanitization succeeds while entry 1
is left without even the `output` field — the source loop sanitizes
`animations[0]` at every iteration instead of `animations[i]`. -/
theorem sanitize_leaves_second_entry_unpopulated :
    (Sanitize cfgTwoEmptyEntries).1 = true ∧
    (((Sanitize cfgTwoEmptyEntries).2.getMember "animations").getElem 1).find
        "output" = none :=
  ⟨rfl, rfl⟩

/-- C4 (refuting evaluation): a wrong-typed recognized field does make
sanitization fail when it sits in entry 0
(`{"animations":[{"optimize":"yes"}]}`), but the same wrong-typed field in
entry 1 (`{"animations":[{},{"optimize":"yes"}]}`) goes undetected and
sanitization succeeds, contradicting the claim that any wrong-typed
recognized field makes sanitization fail — again because the loop only ever
visits `animations[0]`. -/
theorem sanitize_misses_wrong_type_in_second_entry :
    (Sanitize cfgWrongTypeFirst).1 = false ∧
    (Sanitize cfgWrongTypeSecond).1 = true :=
  ⟨rfl, rfl⟩

/-- C5: sanitization is idempotent — whenever it succeeds, running it again
on the resulting tree succeeds and returns the very same tree, inserting,
overwriting and retyping nothing. -/
theorem Sanitize_idempotent (root : JsonValue) (h : (Sanitize root).1 = true) :
    Sanitize (Sanitize root).2 = (true, (Sanitize root).2) := by
  cases root with
  | objectVal ms =>
      cases hf : JsonValue.find (.objectVal ms) "animations" with
      | some f =>
          have hfa : f.isArray = true := by
            simp only [Sanitize, MakeDefaultArray_found _ _ _ hf,
              Bool.and_eq_true] at h
            exact h.1
          cases f with
          | arrayVal elems => exact Sanitize_found_idem (.objectVal ms) elems rfl hf h
          | null => simp [JsonValue.isArray] at hfa
          | intVal k => simp [JsonValue.isArray] at hfa
          | uintVal k => simp [JsonValue.isArray] at hfa
          | realVal q => simp [JsonValue.isArray] at hfa
          | stringVal s => simp [JsonValue.isArray] at hfa
          | boolVal b => simp [JsonValue.isArray] at hfa
          | objectVal ms2 => simp [JsonValue.isArray] at hfa
      | none =>
          have hpush := Sanitize_missing_push (.objectVal ms) hf (Or.inl rfl)
          rw [hpush] at h ⊢
          exact Sanitize_found_idem _ [.null]
            (setMember_isObject _ _ _ (Or.inl rfl))
            (find_setMember_self _ _ _ (Or.inl rfl)) h
  | null =>
      have hpush := Sanitize_missing_push .null rfl (Or.inr rfl)
      rw [hpush] at h ⊢
      exact Sanitize_found_idem _ [.null]
        (setMember_isObject _ _ _ (Or.inr rfl))
        (find_setMember_self _ _ _ (Or.inr rfl)) h
  | intVal k => rfl
  | uintVal k => rfl
  | realVal q => rfl
  | stringVal s => rfl
  | boolVal b => rfl
  | arrayVal xs => rfl

/-- C5 witness: the idempotence theorem applied to the minimal accepted
configuration `{}`. -/
theorem Sanitize_idempotent_witness :
    Sanitize (Sanitize (.objectVal [])).2 = (true, (Sanitize (.objectVal [])).2) :=
  Sanitize_idempotent (.objectVal []) rfl

/-! Lemmas about the filename wildcard loop. -/

theorem countStars_append (a b : List Char) :
    countStars (a ++ b) = countStars a + countStars b := by
  simp [countStars, List.countP_append]

theorem countStars_eq_zero (s : List Char) (h : '*' ∉ s) : countStars s = 0 := by
  simp only [countStars, List.countP_eq_zero]
  intro c hc
  simp only [decide_eq_true_eq]
  intro e; subst e; exact h hc

theorem countStars_pos_of_mem (s : List Char) (h : '*' ∈ s) : 0 < countStars s := by
  simp only [countStars]
  exact List.countP_pos_iff.mpr ⟨'*', h, by simp⟩

theorem replaceStarsSpec_no_star (anim s : List Char) (h : '*' ∉ s) :
    replaceStarsSpec anim s = s := by
  induction s with
  | nil => rfl
  | cons c cs ih =>
      have hc : ¬ c = '*' := fun e => h (e ▸ List.mem_cons_self c cs)
      have hcs : '*' ∉ cs := fun e => h (List.mem_cons_of_mem c e)
      simp [replaceStarsSpec, hc, ih hcs]

theorem replaceStarsSpec_append_no_star (anim pre rest : List Char)
    (h : '*' ∉ pre) :
    replaceStarsSpec anim (pre ++ rest) = pre ++ replaceStarsSpec anim rest := by
  induction pre with
  | nil => rfl
  | cons c cs ih =>
      have hc : ¬ c = '*' := fun e => h (e ▸ List.mem_cons_self c cs)
      have hcs : '*' ∉ cs := fun e => h (List.mem_cons_of_mem c e)
      simp [replaceStarsSpec, hc, ih hcs]

theorem replaceFirstStar_none_of_no_star (anim s : List Char) (h : '*' ∉ s) :
    replaceFirstStar anim s = none := by
  induction s with
  | nil => rfl
  | cons c cs ih =>
      have hc : ¬ c = '*' := fun e => h (e ▸ List.mem_cons_self c cs)
      have hcs : '*' ∉ cs := fun e => h (List.mem_cons_of_mem c e)
      simp [replaceFirstStar, hc, ih hcs]

theorem replaceFirstStar_some_of_mem (anim s : List Char) (h : '*' ∈ s) :
    ∃ s2, replaceFirstStar anim s = some s2 := by
  induction s with
  | nil => cases h
  | cons c cs ih =>
      by_cases hc : c = '*'
      · subst hc; exact ⟨anim ++ cs, by simp [replaceFirstStar]⟩
      · have hcs : '*' ∈ cs := by
          cases h with
          | head => exact absurd rfl hc
          | tail _ hm => exact hm
        obtain ⟨cs2, hcs2⟩ := ih hcs
        exact ⟨c :: cs2, by simp [replaceFirstStar, hc, hcs2]⟩

theorem replaceFirstStar_step (anim : List Char) (ha : '*' ∉ anim) :
    ∀ s s2, replaceFirstStar anim s = some s2 →
      countStars s2 + 1 = countStars s ∧
      replaceStarsSpec anim s2 = replaceStarsSpec anim s := by
  intro s
  induction s with
  | nil => intro s2 h; cases h
  | cons c cs ih =>
      intro s2 h
      by_cases hc : c = '*'
      · subst hc
        simp only [replaceFirstStar, if_true, reduceIte, Option.some.injEq] at h
        subst h
        constructor
        · rw [countStars_append, countStars_eq_zero anim ha]
          simp [countStars, List.countP_cons]
        · rw [replaceStarsSpec_append_no_star anim anim cs ha]
          simp [replaceStarsSpec]
      · simp only [replaceFirstStar, if_neg hc] at h
        cases hrec : replaceFirstStar anim cs with
        | none => rw [hrec] at h; cases h
        | some cs2 =>
            rw [hrec] at h
            simp only [Option.some.injEq] at h
            subst h
            obtain ⟨hcount, hspec⟩ := ih cs2 hrec
            constructor
            · simp only [countStars, List.countP_cons] at hcount ⊢
              omega
            · simp [replaceStarsSpec, hc, hspec]

theorem buildFilenameFuel_eq_spec (anim : List Char) (ha : '*' ∉ anim) :
    ∀ (k : Nat) (s : List Char), countStars s = k →
      buildFilenameFuel anim (k + 1) s = some (replaceStarsSpec anim s) := by
  intro k
  induction k with
  | zero =>
      intro s hk
      have hs : '*' ∉ s := by
        intro hmem
        have := countStars_pos_of_mem s hmem
        omega
      show (match replaceFirstStar anim s with
            | none => some s
            | some s2 => buildFilenameFuel anim 0 s2) = _
      rw [replaceFirstStar_none_of_no_star anim s hs,
        replaceStarsSpec_no_star anim s hs]
  | succ k ih =>
      intro s hk
      have hmem : '*' ∈ s := by
        by_contra hno
        rw [countStars_eq_zero s hno] at hk
        cases hk
      obtain ⟨s2, hs2⟩ := replaceFirstStar_some_of_mem anim s hmem
      obtain ⟨hcount, hspec⟩ := replaceFirstStar_step anim ha s s2 hs2
      have hk2 : countStars s2 = k := by omega
      show (match replaceFirstStar anim s with
            | none => some s
            | some t => buildFilenameFuel anim (k + 1) t) = _
      rw [hs2]
      show buildFilenameFuel anim (k + 1) s2 = some (replaceStarsSpec anim s)
      rw [ih s2 hk2, hspec]

/-- C6: with an asterisk-free animation name the `BuildFilename` loop reaches
its exit and its result replaces every occurrence of the wildcard in the
output pattern with the full animation name, each occurrence identically
(`replaceStarsSpec` is the replace-all specification). -/
theorem BuildFilename_replaces_every_star (pattern animation : List Char)
    (h : '*' ∉ animation) :
    buildFilenameFuel animation (countStars pattern + 1) pattern
      = some (replaceStarsSpec animation pattern) :=
  buildFilenameFuel_eq_spec animation h (countStars pattern) pattern rfl

/-- C6 witness: pattern `*.ozz` with animation name `jump` yields output path
`jump.ozz`. -/
theorem BuildFilename_replaces_every_star_witness :
    buildFilenameFuel ("jump".data) (countStars ("*.ozz".data) + 1) ("*.ozz".data)
      = some ("jump.ozz".data) :=
  (BuildFilename_replaces_every_star ("*.ozz".data) ("jump".data)
    (by decide)).trans rfl

/-- C8 counterexample: on pattern `*` with animation name `*` the
`BuildFilename` loop never terminates — after each replacement the string
still starts with an asterisk, so no amount of fuel reaches the loop exit.
This refutes the claim that the routine terminates for every animation name,
including names containing the wildcard character. -/
theorem BuildFilename_diverges_on_star_name :
    ¬ BuildFilenameTerminates ['*'] ['*'] := by
  intro hterm
  obtain ⟨fuel, hf⟩ := hterm
  have hall : ∀ n, buildFilenameFuel ['*'] n ['*'] = none := by
    intro n
    induction n with
    | zero => rfl
    | succ k ih =>
        have hstep : buildFilenameFuel ['*'] (k + 1) ['*']
            = buildFilenameFuel ['*'] k ['*'] := rfl
        rw [hstep, ih]
  rw [hall fuel] at hf
  simp at hf

/-- C8 (amended): the filename-building routine terminates for every output
pattern whenever the animation name contains no asterisk (for a name
containing one, together with a wildcard pattern, it loops forever — see the
counterexample). -/
theorem BuildFilename_terminates_of_star_free_name (pattern animation : List Char)
    (h : '*' ∉ animation) :
    (buildFilenameFuel animation (countStars pattern + 1) pattern).isSome = true := by
  rw [buildFilenameFuel_eq_spec animation h (countStars pattern) pattern rfl]
  rfl

/-- C8 witness: the amended termination theorem applied to pattern
`out_*.anim` and animation name `walk`. -/
theorem BuildFilename_terminates_of_star_free_name_witness :
    (buildFilenameFuel ("walk".data) (countStars ("out_*.anim".data) + 1)
      ("out_*.anim".data)).isSome = true :=
  BuildFilename_terminates_of_star_free_name ("out_*.anim".data) ("walk".data)
    (by decide)

/-- C10: every percentage ratio of the optimization-statistics report is
guarded by a zero test on the corresponding non-optimized keyframe count and
reports 0 when that count is zero, so the (total) computation performs no
division by zero on any pair of raw animations. -/
theorem DisplaysOptimizationstatistics_zero_guard
    (nonOptimized optimized : RawAnimation) :
    (totalTranslations nonOptimized = 0 →
      (DisplaysOptimizationstatistics nonOptimized optimized).1 = 0) ∧
    (totalRotations nonOptimized = 0 →
      (DisplaysOptimizationstatistics nonOptimized optimized).2.1 = 0) ∧
    (totalScales nonOptimized = 0 →
      (DisplaysOptimizationstatistics nonOptimized optimized).2.2 = 0) := by
  refine ⟨fun h => ?_, fun h => ?_, fun h => ?_⟩ <;>
    simp [DisplaysOptimizationstatistics, optimizationRatio, h]

/-- C10 witness: the guard theorem applied to an animation with zero tracks,
where all three counts are zero and all three reported ratios are 0. -/
theorem DisplaysOptimizationstatistics_zero_guard_witness :
    (DisplaysOptimizationstatistics emptyRawAnimation emptyRawAnimation).1 = 0 ∧
    (DisplaysOptimizationstatistics emptyRawAnimation emptyRawAnimation).2.1 = 0 ∧
    (DisplaysOptimizationstatistics emptyRawAnimation emptyRawAnimation).2.2 = 0 :=
  ⟨(DisplaysOptimizationstatistics_zero_guard emptyRawAnimation emptyRawAnimation).1
      rfl,
   (DisplaysOptimizationstatistics_zero_guard emptyRawAnimation
      emptyRawAnimation).2.1 rfl,
   (DisplaysOptimizationstatistics_zero_guard emptyRawAnimation
      emptyRawAnimation).2.2 rfl⟩

/-- C1 (refuting evaluation): the full behaviour table of the endianness
selection on both hosts.  Option "little" selects BIG-endian output, options
"native" and "big" select LITTLE-endian output, independent of the host —
the inverted `strcmp` truth test.  The claim (and the option documentation
in the source) requires "native" = host endianness, "little" = little,
"big" = big; in particular on a big-endian host option "native" must yield
big-endian output but yields little-endian. -/
theorem selectEndianness_contradicts_options :
    selectEndianness .little "native" = .little ∧
    selectEndianness .big "native" = .little ∧
    selectEndianness .little "little" = .big ∧
    selectEndianness .big "little" = .big ∧
    selectEndianness .little "big" = .little ∧
    selectEndianness .big "big" = .little :=
  ⟨rfl, rfl, rfl, rfl, rfl, rfl⟩

/-- C9: whenever `Export` returns (it does not return when the animation
name contains a wildcard, see C8), the output destination carries data
exactly when `Export` reports success — a failure of the additive build, the
optimization, the runtime build, or the file open leaves the destination
untouched, which is only created and written after every prior stage and the
open have succeeded. -/
theorem Export_touches_output_only_on_success (env : ExportEnv)
    (raw : RawAnimation) (sk : Skeleton) (cfg : JsonValue) (r : ExportResult)
    (h : Export env raw sk cfg = some r) :
    (r.success = false → r.written = none) ∧
    (r.written.isSome = true → r.success = true) := by
  simp only [Export] at h
  repeat' split at h
  all_goals cases h
  all_goals simp

/-- C9 witness: the atomicity theorem applied to collaborators whose
builders succeed but whose output file cannot be opened; `Export` then
returns failure with nothing written. -/
theorem Export_touches_output_only_on_success_witness :
    (exportFailResult.success = false → exportFailResult.written = none) ∧
    (exportFailResult.written.isSome = true → exportFailResult.success = true) :=
  Export_touches_output_only_on_success exportFailEnv walkAnimation
    defaultSkeleton exportConfigEntry exportFailResult rfl

/-- C3: the coordinator's process exit status is success exactly when the
configuration parse, sanitization, the input-file check, the skeleton
import, the animation import and the export of every retained animation all
succeed (the input-file existence check is part of reaching the import), and
whenever the import succeeds `Export` is attempted on every retained
animation — the `success &= Export(...)` fold never short-circuits. -/
theorem converter_exit_iff_all_succeed (inp : ConverterInputs) :
    ((AnimationConverter inp).exitSuccess = true ↔
      ∃ config anims, inp.parseResult = some config ∧
        (Sanitize config).1 = true ∧
        inp.fileExists = true ∧ inp.skeletonOk = true ∧
        inp.importResult = some anims ∧
        ∀ a ∈ (retainAnimations (animationsEntryOutput (Sanitize config).2)
            anims).1, inp.exportOk a = true) ∧
    (∀ config anims, inp.parseResult = some config →
      (Sanitize config).1 = true → inp.fileExists = true →
      inp.skeletonOk = true → inp.importResult = some anims →
      (AnimationConverter inp).exportAttempts
        = (retainAnimations (animationsEntryOutput (Sanitize config).2)
            anims).1) := by
  cases hpr : inp.parseResult with
  | none =>
      constructor
      · simp only [AnimationConverter, hpr]
        constructor
        · intro h; cases h
        · rintro ⟨config, anims, hc, -⟩
          cases hc
      · intro config anims hc
        cases hc
  | some config =>
      simp only [AnimationConverter, hpr]
      cases hsan : (Sanitize config).1 with
      | false =>
          rw [if_pos rfl]
          constructor
          · constructor
            · intro h; simp at h
            · rintro ⟨config2, anims, hc, hs2, -⟩
              injection hc with hc2
              subst hc2
              rw [hsan] at hs2; cases hs2
          · intro config2 anims hc hs2
            injection hc with hc2
            subst hc2
            rw [hsan] at hs2; cases hs2
      | true =>
          rw [if_neg (by simp)]
          cases hfe : inp.fileExists with
          | false =>
              rw [if_pos rfl]
              constructor
              · constructor
                · intro h; simp at h
                · rintro ⟨config2, anims, hc, hs2, hf2, -⟩
                  cases hf2
              · intro config2 anims hc hs2 hf2
                cases hf2
          | true =>
              rw [if_neg (by simp)]
              cases hsk : inp.skeletonOk with
              | false =>
                  rw [if_pos rfl]
                  constructor
                  · constructor
                    · intro h; simp at h
                    · rintro ⟨config2, anims, hc, hs2, hf2, hk2, -⟩
                      cases hk2
                  · intro config2 anims hc hs2 hf2 hk2
                    cases hk2
              | true =>
                  rw [if_neg (by simp)]
                  cases hir : inp.importResult with
                  | none =>
                      constructor
                      · constructor
                        · intro h; simp at h
                        · rintro ⟨config2, anims2, hc, hs2, hf2, hk2, hi2, -⟩
                          cases hi2
                      · intro config2 anims2 hc hs2 hf2 hk2 hi2
                        cases hi2
                  | some anims =>
                      constructor
                      · constructor
                        · intro h
                          refine ⟨config, anims, rfl, hsan, rfl, rfl, rfl, ?_⟩
                          exact List.all_eq_true.mp h
                        · rintro ⟨config2, anims2, hc, hs2, hf2, hk2, hi2, hall⟩
                          injection hc with hc2
                          subst hc2
                          injection hi2 with hi3
                          subst hi3
                          exact List.all_eq_true.mpr hall
                      · intro config2 anims2 hc hs2 hf2 hk2 hi2
                        injection hc with hc2
                        subst hc2
                        injection hi2 with hi3
                        subst hi3
                        rfl

/-- C3 witness: the exit-status theorem applied to a run where every stage
succeeds; the exit status is success and the single imported animation is
exported. -/
theorem converter_exit_iff_all_succeed_witness :
    (AnimationConverter converterAllOkInputs).exitSuccess = true ∧
    (AnimationConverter converterAllOkInputs).exportAttempts = [walkAnimation] :=
  ⟨(converter_exit_iff_all_succeed converterAllOkInputs).1.mpr
      ⟨.objectVal [], [walkAnimation], rfl, rfl, rfl, rfl, rfl,
        fun _ _ => rfl⟩,
   ((converter_exit_iff_all_succeed converterAllOkInputs).2 (.objectVal [])
      [walkAnimation] rfl rfl rfl rfl rfl).trans rfl⟩

/-- C7: when the sanitized output pattern holds no wildcard and the importer
returned more than one animation, the coordinator exports exactly the first
imported animation, discards the rest, and emits the diagnostic carrying the
number of animations found. -/
theorem converter_single_output (inp : ConverterInputs) (config : JsonValue)
    (anims : List RawAnimation)
    (hp : inp.parseResult = some config) (hs : (Sanitize config).1 = true)
    (hf : inp.fileExists = true) (hk : inp.skeletonOk = true)
    (hi : inp.importResult = some anims)
    (hno : OutputSingleAnimation (animationsEntryOutput (Sanitize config).2) = true)
    (hn : 1 < anims.length) :
    (AnimationConverter inp).exportAttempts = anims.take 1 ∧
    (AnimationConverter inp).discardDiagnostic = some anims.length := by
  simp only [AnimationConverter, hp, hs, hf, hk, hi, reduceIte]
  simp [retainAnimations, hno, hn]

/-- C7 witness: the single-output theorem applied to the configuration
`{"animations":[{"output":"clip.ozz"}]}` with two imported animations; only
the first ("walk") is exported and the diagnostic reports 2. -/
theorem converter_single_output_witness :
    (AnimationConverter converterTwoAnimInputs).exportAttempts = [walkAnimation] ∧
    (AnimationConverter converterTwoAnimInputs).discardDiagnostic = some 2 := by
  have h := converter_single_output converterTwoAnimInputs cfgSingleOutput
    [walkAnimation, runAnimation] rfl rfl rfl rfl rfl rfl (by decide)
  exact ⟨h.1.trans rfl, h.2⟩

end Ozz
